import Mathlib

unseal Rat.ofScientific Rat.mul Rat.inv Rat.add Rat.sub

/-!
# Verification of the news-triage pipeline

Shallow embedding of the news-triage pipeline of this repository
(`server/services/serper.ts` and `server/services/openai.ts`, together with the
shared zod schema) and proofs of its stated properties.

Modelling conventions:
* JavaScript IEEE-754 numbers are modelled by exact rationals (`ℚ`).  All
  numeric constants of the source (`1.5`, `0.7`, `3.0`, …) are exact decimals,
  the scores stay small, and every comparison proved below is robust under
  this identification (the nearest representable doubles order the same way).
* `Date` parsing of the source-supplied `publishedAt` strings is modelled by an
  explicit parameter `pd : String → Option Int` (milliseconds since the epoch;
  `none` models an invalid date, i.e. a `NaN` timestamp).  The current time
  `Date.now()` is an explicit parameter `now : Int`.
* Strings are treated as sequences of characters; the regular-expression
  classes `\w` and `\s` are modelled over ASCII, which covers all string
  literals appearing in the source.
* The external search and language-model backends are out of scope; their
  outcomes enter the pipeline as explicit parameters (`ScorerOutcome`,
  collection results), exactly at the points where the source awaits them.
-/

namespace NewsTriage

/-! ## String utilities -/

/-- `String.prototype.toLowerCase` (ASCII). -/
def lowerStr (s : String) : String :=
  String.mk (s.data.map Char.toLower)

/-- ASCII word character, the `\w` class of the source's regexes. -/
def isWordChar (c : Char) : Bool :=
  c.isAlphanum || c = '_'

/-- ASCII whitespace, the `\s` class of the source's regexes. -/
def isWsChar (c : Char) : Bool :=
  c = ' ' || c = '\t' || c = '\n' || c = '\r' || c = '\x0b' || c = '\x0c'

/-- Collapse every maximal run of whitespace to a single space
(`.replace(/\s+/g, " ")`).  The flag records whether the previous
character belonged to a whitespace run. -/
def collapseWsAux : Bool → List Char → List Char
  | _, [] => []
  | prevWs, c :: cs =>
    if isWsChar c then
      if prevWs then collapseWsAux true cs
      else ' ' :: collapseWsAux true cs
    else c :: collapseWsAux false cs

/-- Strip leading and trailing whitespace (`.trim()`). -/
def trimChars (l : List Char) : List Char :=
  ((l.dropWhile isWsChar).reverse.dropWhile isWsChar).reverse

/-- `SerperService.normalizeString`: lower-case, remove punctuation
(`[^\w\s]`), collapse whitespace, trim. -/
def normalizeString (s : String) : String :=
  String.mk (trimChars (collapseWsAux false
    (((lowerStr s).data).filter (fun c => isWordChar c || isWsChar c))))

/-- Does `pat` occur as a contiguous substring of the character list
(JavaScript `String.prototype.includes`)? -/
def charsContains (pat : List Char) : List Char → Bool
  | [] => pat.isEmpty
  | c :: cs => pat.isPrefixOf (c :: cs) || charsContains pat cs

/-- `haystack.includes(needle)`. -/
def strContains (haystack needle : String) : Bool :=
  charsContains needle.data haystack.data

/-- Split a character list at every occurrence of `sep`
(JavaScript `String.prototype.split` with a one-character separator). -/
def splitOnCharAux (sep : Char) : List Char → List Char → List (List Char)
  | [], acc => [acc.reverse]
  | c :: cs, acc =>
    if c = sep then acc.reverse :: splitOnCharAux sep cs []
    else splitOnCharAux sep cs (c :: acc)

def splitOnChar (sep : Char) (s : String) : List String :=
  (splitOnCharAux sep s.data []).map String.mk

/-! ## Data model (shared/schema.ts) -/

/-- `NewsItemSchema`: a collected news article.  `riskScore` and
`impactReason` are the optional not-yet-enriched fields. -/
structure NewsItem where
  title : String
  description : String
  url : String
  publishedAt : String
  source : String
  region : Option String := none
  riskScore : Option ℚ := none
  impactReason : Option String := none
deriving DecidableEq

/-- `RankedNewsItemSchema`: a news item whose `riskScore` and `impactReason`
are guaranteed present. -/
structure RankedNewsItem where
  title : String
  description : String
  url : String
  publishedAt : String
  source : String
  region : Option String := none
  riskScore : ℚ
  impactReason : String
deriving DecidableEq

/-- `NewsRankingResponseSchema`. -/
structure NewsRankingResponse where
  items : List RankedNewsItem
  fallbackUsed : Bool
deriving DecidableEq

/-- The JavaScript spread `{...item, riskScore, impactReason}` producing a
`RankedNewsItem` from a `NewsItem`. -/
def enrich (it : NewsItem) (score : ℚ) (reason : String) : RankedNewsItem :=
  { title := it.title, description := it.description, url := it.url,
    publishedAt := it.publishedAt, source := it.source, region := it.region,
    riskScore := score, impactReason := reason }

/-- A date-parsing oracle: `new Date(s).getTime()`, with `none` for `NaN`. -/
abbrev DateParse := String → Option Int

/-- `new Date(a) > new Date(b)` — any comparison involving `NaN` is false. -/
def dateGt (pd : DateParse) (a b : String) : Bool :=
  match pd a, pd b with
  | some x, some y => y < x
  | _, _ => false

/-- Timestamp used inside the `.sort` comparators.  An invalid date yields
`NaN` in the source, making the comparator inconsistent and the resulting
order implementation-defined; we model that degenerate value as `0`. -/
def timeVal (pd : DateParse) (s : String) : Int :=
  (pd s).getD 0

/-! ## Deduplicator (serper.ts, `deduplicateNews` / `isSimilar`) -/

/-- `isSimilar`: identical, substring-related, or word-overlap ≥ 0.7.
The sets of words of the two (already normalized) titles are compared; the
exact rational test `inter/union ≥ 7/10` agrees with the source's
floating-point test for all feasible set sizes. -/
def isSimilar (str1 str2 : String) : Bool :=
  str1 == str2 ||
  strContains str1 str2 || strContains str2 str1 ||
  (let words1 := (splitOnChar ' ' str1).dedup
   let words2 := (splitOnChar ' ' str2).dedup
   let inter := (words1.filter (fun w => words2.contains w)).length
   let union := ((splitOnChar ' ' str1) ++ (splitOnChar ' ' str2)).dedup.length
   decide (7 * union ≤ 10 * inter))

/-- The composite key `` `${titleKey}-${sourceKey}` ``. -/
def compositeKey (it : NewsItem) : String :=
  normalizeString it.title ++ "-" ++ normalizeString it.source

/-- `key.split("-")[0]`: the title part of a composite key. -/
def keyTitle (k : String) : String :=
  (splitOnChar '-' k).headD ""

/-- The insertion-ordered `Map` of the source, as an association list.
`Map.set` replaces in place when the key exists and appends otherwise. -/
def mapSet (k : String) (v : NewsItem) :
    List (String × NewsItem) → List (String × NewsItem)
  | [] => [(k, v)]
  | (k', v') :: rest =>
    if k' = k then (k, v) :: rest else (k', v') :: mapSet k v rest

/-- `Map.delete`. -/
def mapDelete (k : String) :
    List (String × NewsItem) → List (String × NewsItem)
  | [] => []
  | (k', v') :: rest =>
    if k' = k then rest else (k', v') :: mapDelete k rest

/-- The scan of `seen.entries()` for the first entry whose stored title key is
similar to the incoming one (the loop with `break`). -/
def findSimilar (titleKey : String) :
    List (String × NewsItem) → Option (String × NewsItem)
  | [] => none
  | (k, v) :: rest =>
    if isSimilar titleKey (keyTitle k) then some (k, v)
    else findSimilar titleKey rest

/-- One iteration of the `deduplicateNews` loop body. -/
def dedupStep (pd : DateParse) (seen : List (String × NewsItem))
    (item : NewsItem) : List (String × NewsItem) :=
  let titleKey := normalizeString item.title
  match findSimilar titleKey seen with
  | some (key, existingItem) =>
    if dateGt pd item.publishedAt existingItem.publishedAt then
      mapDelete key (mapSet (compositeKey item) item seen)
    else seen
  | none => mapSet (compositeKey item) item seen

/-- `SerperService.deduplicateNews`. -/
def deduplicateNews (pd : DateParse) (items : List NewsItem) : List NewsItem :=
  (items.foldl (dedupStep pd) []).map Prod.snd

/-! ## Sorting (JavaScript `Array.prototype.sort`)

The source sorts with numeric comparators; for a consistent comparator the
engine's stable sort is the unique stable order, which the insertion sort
below produces with `le a b = (comparator a b ≤ 0)`. -/

def orderedInsertLe {α : Type} (le : α → α → Bool) (x : α) :
    List α → List α
  | [] => [x]
  | h :: t => if le x h then x :: h :: t else h :: orderedInsertLe le x t

def sortByLe {α : Type} (le : α → α → Bool) : List α → List α
  | [] => []
  | h :: t => orderedInsertLe le h (sortByLe le t)

/-! ## Impact Scorer heuristics (openai.ts) -/

/-- `Math.round` (half away from zero is half toward `+∞` in JavaScript),
then one decimal: `Math.round(x * 10) / 10`. -/
def roundToTenth (q : ℚ) : ℚ :=
  ((⌊q * 10 + 1 / 2⌋ : ℤ) : ℚ) / 10

/-- `OpenAIService.calculateRecencyMultiplier`.  `now` and the parsed publish
time are in milliseconds; `hoursAgo` is their difference in hours. -/
def calculateRecencyMultiplier (pd : DateParse) (now : Int)
    (publishedAt : String) : ℚ :=
  match pd publishedAt with
  | none => 1
  | some publishTime =>
    let hoursAgo : ℚ := ((now - publishTime : Int) : ℚ) / (1000 * 60 * 60)
    if hoursAgo < 0 ∨ 8760 < hoursAgo then 1
    else if hoursAgo < 2 then 1.5
    else if hoursAgo < 6 then 1.3
    else if hoursAgo < 24 then 1.1
    else if hoursAgo < 72 then 1
    else max 0.8 (1 - (hoursAgo - 72) / 168)

def tier1Sources : List String :=
  ["reuters", "bloomberg", "wall street journal", "wsj", "financial times", "ft"]

def tier2Sources : List String :=
  ["associated press", "ap news", "cnn", "bbc", "cnbc", "marketwatch",
   "yahoo finance"]

def tier3Sources : List String :=
  ["nikkei", "south china morning post", "straits times", "bangkok post",
   "the nation"]

/-- `OpenAIService.calculateSourceCredibilityWeight`. -/
def calculateSourceCredibilityWeight (source : String) : ℚ :=
  let normalizedSource := lowerStr source
  if tier1Sources.any (fun s => strContains normalizedSource s) then 1.3
  else if tier2Sources.any (fun s => strContains normalizedSource s) then 1.1
  else if tier3Sources.any (fun s => strContains normalizedSource s) then 1.05
  else 0.9

def criticalKeywords : List String :=
  ["breaking", "emergency", "halt", "halted", "suspend", "suspended",
   "banned", "embargo"]

def highImpactKeywords : List String :=
  ["crisis", "disruption", "sanctions", "conflict", "war", "invasion",
   "shortage", "collapse"]

def marketKeywords : List String :=
  ["central bank", "interest rate", "fed decision", "supply chain",
   "inflation", "recession"]

def policyKeywords : List String :=
  ["regulation", "policy", "government", "tariff", "trade deal", "agreement"]

/-- `OpenAIService.calculateKeywordImpactBoost`.  Each keyword tier
contributes a multiplicative boost; the total is capped at 1.8. -/
def calculateKeywordImpactBoost (title description : String) : ℚ :=
  let text := lowerStr (title ++ " " ++ description)
  let boost : ℚ :=
    (if criticalKeywords.any (fun k => strContains text k) then 1.3 else 1) *
    (if highImpactKeywords.any (fun k => strContains text k) then 1.2 else 1) *
    (if marketKeywords.any (fun k => strContains text k) then 1.15 else 1) *
    (if policyKeywords.any (fun k => strContains text k) then 1.1 else 1)
  min boost 1.8

def seaKeywords : List String :=
  ["thailand", "singapore", "malaysia", "vietnam", "philippines",
   "indonesia", "southeast asia", "asean"]

def thailandKeywords : List String :=
  ["thailand", "thai", "bangkok", "bank of thailand", "bot"]

def regionalEconKeywords : List String :=
  ["asia pacific", "regional trade", "asian markets", "emerging markets"]

/-- `OpenAIService.calculateGeographicRelevance`, capped at 1.6. -/
def calculateGeographicRelevance (title description source : String) : ℚ :=
  let text := lowerStr (title ++ " " ++ description ++ " " ++ source)
  let relevance : ℚ :=
    (if seaKeywords.any (fun k => strContains text k) then 1.25 else 1) *
    (if thailandKeywords.any (fun k => strContains text k) then 1.3 else 1) *
    (if regionalEconKeywords.any (fun k => strContains text k) then 1.2 else 1)
  min relevance 1.6

/-- Result of `calculateHybridRiskScore`: the rounded final score plus the
human-readable breakdown string. -/
structure HybridScore where
  finalScore : ℚ
  breakdown : String
deriving DecidableEq

/-- `OpenAIService.calculateHybridRiskScore`:
`clamp(base × recency × source × keyword × geo, 1, 10)` rounded to one
decimal.  The breakdown mirrors the source's template literal; JavaScript's
`toFixed` numeric formatting is rendered via `toString` on ℚ, which is
irrelevant to every property below (only the bracketed shape matters). -/
def calculateHybridRiskScore (pd : DateParse) (now : Int)
    (baseAiScore : ℚ) (newsItem : NewsItem) : HybridScore :=
  let recencyMultiplier := calculateRecencyMultiplier pd now newsItem.publishedAt
  let sourceWeight := calculateSourceCredibilityWeight newsItem.source
  let keywordBoost := calculateKeywordImpactBoost newsItem.title newsItem.description
  let geoRelevance := calculateGeographicRelevance
    newsItem.title newsItem.description newsItem.source
  let finalScore :=
    min (max (baseAiScore * recencyMultiplier * sourceWeight *
      keywordBoost * geoRelevance) 1) 10
  { finalScore := roundToTenth finalScore,
    breakdown := "AI:" ++ toString baseAiScore ++
      " x Recency:" ++ toString recencyMultiplier ++
      " x Source:" ++ toString sourceWeight ++
      " x Keywords:" ++ toString keywordBoost ++
      " x Geo:" ++ toString geoRelevance ++
      " = " ++ toString (roundToTenth finalScore) }

/-! ## Fallback Ranker (openai.ts, `fallbackToChronological`) -/

/-- The enrichment applied to every item on the fallback path: neutral base
score 5, the same four heuristic multipliers, and an impact reason explicitly
marked as a fallback explanation. -/
def fallbackEnrich (pd : DateParse) (now : Int) (item : NewsItem) :
    RankedNewsItem :=
  let hs := calculateHybridRiskScore pd now 5 item
  enrich item hs.finalScore
    ("Chronological fallback - AI ranking unavailable [" ++ hs.breakdown ++ "]")

/-- The fallback sort comparator: recency decides near-ties
(score difference < 0.1), otherwise score descending. -/
def fallbackCmp (pd : DateParse) (a b : RankedNewsItem) : ℚ :=
  if |a.riskScore - b.riskScore| < 0.1 then
    ((timeVal pd b.publishedAt - timeVal pd a.publishedAt : Int) : ℚ)
  else b.riskScore - a.riskScore

def fallbackLe (pd : DateParse) (a b : RankedNewsItem) : Bool :=
  decide (fallbackCmp pd a b ≤ 0)

/-- `OpenAIService.fallbackToChronological` (the enhanced variant used by the
triage pipeline). -/
def fallbackToChronological (pd : DateParse) (now : Int)
    (newsItems : List NewsItem) : NewsRankingResponse :=
  let enhancedItems := newsItems.map (fallbackEnrich pd now)
  let sortedItems := (sortByLe (fallbackLe pd) enhancedItems).take 5
  { items := sortedItems, fallbackUsed := true }

/-! ## AI ranking-response processing (openai.ts, `rankNewsByImpact`) -/

/-- One entry of the language model's `rankings` array.  `riskScore = none`
models a non-numeric score (which propagates as `NaN` in the source and is
rejected by the `>= 3.0` threshold); `impactReason = none` models a missing
reason (replaced by a default). -/
structure Ranking where
  id : Int
  riskScore : Option ℚ
  impactReason : Option String

/-- `recentNewsItems[ranking.id]`: JavaScript array indexing, `undefined`
for any index that is not a position of the array. -/
def lookupItem (items : List NewsItem) (id : Int) : Option NewsItem :=
  if id < 0 then none else items[id.toNat]?

/-- `ranking.impactReason || "Impact assessment unavailable"` (both a missing
and an empty reason are falsy). -/
def reasonOrDefault (r : Option String) : String :=
  match r with
  | some s => if s = "" then "Impact assessment unavailable" else s
  | none => "Impact assessment unavailable"

/-- The body of the ranking-processing loop for one entry: index check,
clamping of the model's score to [1,10], hybrid scoring, and the `>= 3.0`
acceptance threshold. -/
def rankingAccepted (pd : DateParse) (now : Int) (recentNewsItems : List NewsItem)
    (ranking : Ranking) : Option RankedNewsItem :=
  match lookupItem recentNewsItems ranking.id, ranking.riskScore with
  | some originalItem, some s =>
    let baseAiScore := min (max s 1) 10
    let hs := calculateHybridRiskScore pd now baseAiScore originalItem
    if 3 ≤ hs.finalScore then
      some (enrich originalItem hs.finalScore
        (reasonOrDefault ranking.impactReason ++ " [" ++ hs.breakdown ++ "]"))
    else none
  | _, _ => none

/-- The collected `rankedItems` array. -/
def processRankings (pd : DateParse) (now : Int)
    (recentNewsItems : List NewsItem) (rankings : List Ranking) :
    List RankedNewsItem :=
  rankings.filterMap (rankingAccepted pd now recentNewsItems)

/-- Date-descending comparator (`getTime(b) - getTime(a)`). -/
def dateDescLe (pd : DateParse) (a b : NewsItem) : Bool :=
  decide ((timeVal pd b.publishedAt - timeVal pd a.publishedAt : Int) ≤ 0)

/-- Score-descending comparator (`b.riskScore - a.riskScore`). -/
def scoreDescLe (a b : RankedNewsItem) : Bool :=
  decide (b.riskScore - a.riskScore ≤ 0)

/-- Outcome of the language-model ranking call as observed by
`rankNewsByImpact`'s `try` block:
* `failure`   — timeout, transport/API error, or a `JSON.parse` throw
  (anything that lands in the `catch`);
* `parsed none` — `JSON.parse` succeeded but the result has no `rankings`
  array, so zero items are collected;
* `parsed (some rks)` — a well-formed `rankings` array. -/
inductive ScorerOutcome where
  | failure
  | parsed (rankings : Option (List Ranking))

/-- `OpenAIService.rankNewsByImpact` (enhanced variant).  The source sorts
`newsItems` by date in place before slicing the 8 most recent, so the
zero-accepted fallback call sees the date-sorted array; exceptions reach the
`catch` either before or after that in-place sort, and since
`fallbackToChronological` re-sorts, the distinction is unobservable — the
`failure` branch is modelled with the argument as passed. -/
def rankNewsByImpact (pd : DateParse) (now : Int) (outcome : ScorerOutcome)
    (newsItems : List NewsItem) : NewsRankingResponse :=
  match outcome with
  | .failure => fallbackToChronological pd now newsItems
  | .parsed orankings =>
    let sortedNewsItems := sortByLe (dateDescLe pd) newsItems
    let recentNewsItems := sortedNewsItems.take 8
    let rankedItems := processRankings pd now recentNewsItems (orankings.getD [])
    let top5Items := (sortByLe scoreDescLe rankedItems).take 5
    if top5Items.isEmpty then fallbackToChronological pd now sortedNewsItems
    else { items := top5Items, fallbackUsed := false }

/-! ## Triage Orchestrator (serper.ts, `triageAndRankNews`) -/

/-- The enrichment of the orchestrator's own catch-block fallback:
chronological top 5 with a flat risk score of 5. -/
def basicFallbackEnrich (item : NewsItem) : RankedNewsItem :=
  enrich item 5 "Fallback mode - AI ranking unavailable"

/-- `SerperService.triageAndRankNews`.  `collect1` is the outcome of the
initial `collectGlobalNews` (`none` models a rejected collection), `scorer`
the outcome of the model call, and `collect2` the outcome of the second
`collectGlobalNews` performed inside the catch block. -/
def triageAndRankNews (pd : DateParse) (now : Int)
    (collect1 collect2 : Option (List NewsItem)) (scorer : ScorerOutcome) :
    NewsRankingResponse :=
  match collect1 with
  | some items =>
    if items.length = 0 then { items := [], fallbackUsed := true }
    else rankNewsByImpact pd now scorer items
  | none =>
    match collect2 with
    | some items =>
      { items := ((sortByLe (dateDescLe pd) items).take 5).map basicFallbackEnrich,
        fallbackUsed := true }
    | none => { items := [], fallbackUsed := true }

/-! ## Spec-side definitions and predicates used by the claims -/

/-- The spec's scoring formula (§4.3 step 4), stated independently of the
implementation: `clamp(base × recency × source × keyword × geo, 1, 10)`,
rounded to one decimal. -/
def specFinalScore (pd : DateParse) (now : Int) (base : ℚ)
    (item : NewsItem) : ℚ :=
  roundToTenth (min (max (base *
    calculateRecencyMultiplier pd now item.publishedAt *
    calculateSourceCredibilityWeight item.source *
    calculateKeywordImpactBoost item.title item.description *
    calculateGeographicRelevance item.title item.description item.source) 1) 10)

/-- An impact reason that carries fallback provenance: it starts with the
fallback ranker's marker or is the orchestrator's flat fallback text. -/
def fallbackMarked (s : String) : Prop :=
  ("Chronological fallback - AI ranking unavailable").data <+: s.data ∨
  s = "Fallback mode - AI ranking unavailable"

/-- The scorer-backend failure modes of the spec (§4.3 step 6): timeout,
transport error or unparseable output (`failure`), a parsed response without
the expected structure (`parsed none`), or a parsed response from which zero
items are accepted. -/
def scorerFailed (pd : DateParse) (now : Int) (outcome : ScorerOutcome)
    (newsItems : List NewsItem) : Prop :=
  outcome = .failure ∨ outcome = .parsed none ∨
  ∃ rks, outcome = .parsed (some rks) ∧
    processRankings pd now ((sortByLe (dateDescLe pd) newsItems).take 8) rks = []

/-- The relation in which the fallback ranker's output is emitted: score
descending, recency descending for near-ties (score gap below 0.1). -/
def fallbackOrdered (pd : DateParse) (a b : RankedNewsItem) : Prop :=
  fallbackLe pd a b = true

/-! ## Concrete inputs for witnesses and counterexamples -/

/-- A concrete date oracle for witnesses: strings of digits parse to the
corresponding millisecond timestamp, everything else is invalid. -/
def pdW : DateParse := fun s =>
  if s.data ≠ [] ∧ s.data.all Char.isDigit then
    some (Int.ofNat (s.data.foldl (fun n c => n * 10 + (c.toNat - 48)) 0))
  else none

/-- A concrete evaluation time for witnesses (milliseconds). -/
def nowW : Int := 360000000

/-- A feature-laden article: urgent and high-impact keywords, priority
country, top-tier wire source, published one hour before `nowW`. -/
def itemEnh : NewsItem :=
  { title := "Breaking sanctions on Thailand", description := "", url := "u1",
    publishedAt := "356400000", source := "Reuters" }

/-- The featureless counterpart: no keywords, unknown source, published 100
hours before `nowW`. -/
def itemPlain : NewsItem :=
  { title := "Quarterly report", description := "", url := "u2",
    publishedAt := "0", source := "Example Daily" }

def cexA : NewsItem :=
  { title := "a b", description := "", url := "uA", publishedAt := "1",
    source := "s1" }

def cexB : NewsItem :=
  { title := "c d", description := "", url := "uB", publishedAt := "0",
    source := "s2" }

def cexC : NewsItem :=
  { title := "a b c d", description := "", url := "uC", publishedAt := "2",
    source := "s3" }

def cexD : NewsItem :=
  { title := "gold up", description := "", url := "uD", publishedAt := "1",
    source := "reuters" }

def cexE : NewsItem :=
  { title := "gold up", description := "", url := "uE", publishedAt := "2",
    source := "reuters" }

def cexF : NewsItem :=
  { title := "Gold up!", description := "", url := "uF", publishedAt := "5",
    source := "alpha" }

def cexG : NewsItem :=
  { title := "gold up", description := "", url := "uG", publishedAt := "9",
    source := "beta" }

/-- A concrete ranking entry for witnesses. -/
def rkW : Ranking := { id := 0, riskScore := some 5, impactReason := some "geo risk" }

/-! ## Helper lemmas: strings and normalization -/

theorem data_append (s t : String) : (s ++ t).data = s.data ++ t.data := rfl

theorem mem_collapseWsAux {c : Char} :
    ∀ {b : Bool} {l : List Char}, c ∈ collapseWsAux b l →
      c = ' ' ∨ (c ∈ l ∧ isWsChar c = false) := by
  intro b l
  induction l generalizing b with
  | nil => intro h; simp [collapseWsAux] at h
  | cons d t ih =>
    intro h
    simp only [collapseWsAux] at h
    by_cases hd : isWsChar d = true
    · rw [if_pos hd] at h
      cases b with
      | true =>
        simp only [if_pos rfl] at h
        rcases ih h with h' | h'
        · exact Or.inl h'
        · exact Or.inr ⟨List.mem_cons_of_mem _ h'.1, h'.2⟩
      | false =>
        simp only [Bool.false_eq_true, if_neg] at h
        rcases List.mem_cons.mp h with h' | h'
        · exact Or.inl h'
        · rcases ih h' with h'' | h''
          · exact Or.inl h''
          · exact Or.inr ⟨List.mem_cons_of_mem _ h''.1, h''.2⟩
    · rw [if_neg hd] at h
      rcases List.mem_cons.mp h with h' | h'
      · subst h'
        exact Or.inr ⟨List.mem_cons_self _ _, Bool.not_eq_true _ ▸ hd⟩
      · rcases ih h' with h'' | h''
        · exact Or.inl h''
        · exact Or.inr ⟨List.mem_cons_of_mem _ h''.1, h''.2⟩

theorem mem_trimChars {c : Char} {l : List Char} (h : c ∈ trimChars l) :
    c ∈ l := by
  unfold trimChars at h
  rw [List.mem_reverse] at h
  have h1 := (List.dropWhile_sublist (l := (l.dropWhile isWsChar).reverse)
    isWsChar).mem h
  rw [List.mem_reverse] at h1
  exact (List.dropWhile_sublist isWsChar).mem h1

theorem mem_normalizeString {c : Char} {s : String}
    (h : c ∈ (normalizeString s).data) : isWordChar c = true ∨ c = ' ' := by
  unfold normalizeString at h
  have h1 := mem_collapseWsAux (mem_trimChars h)
  rcases h1 with h1 | ⟨h1, h2⟩
  · exact Or.inr h1
  · have := (List.mem_filter.mp h1).2
    rcases Bool.or_eq_true_iff.mp this with h3 | h3
    · exact Or.inl h3
    · rw [h3] at h2; cases h2

theorem normalizeString_ne_hyphen {s : String} :
    ∀ c ∈ (normalizeString s).data, c ≠ '-' := by
  intro c hc heq
  subst heq
  rcases mem_normalizeString hc with h | h
  · simp [isWordChar, Char.isAlphanum, Char.isAlpha, Char.isUpper,
      Char.isLower, Char.isDigit] at h
  · cases h

theorem splitOnCharAux_append (sep : Char) (r : List Char) :
    ∀ (l acc : List Char), (∀ c ∈ l, c ≠ sep) →
      splitOnCharAux sep (l ++ sep :: r) acc =
        (acc.reverse ++ l) :: splitOnCharAux sep r [] := by
  intro l
  induction l with
  | nil => intro acc _; simp [splitOnCharAux]
  | cons d t ih =>
    intro acc h
    have hd : ¬(d = sep) := h d (List.mem_cons_self _ _)
    simp only [List.cons_append, splitOnCharAux, if_neg hd, List.append_eq]
    rw [ih (d :: acc) (fun c hc => h c (List.mem_cons_of_mem _ hc))]
    simp

theorem keyTitle_compositeKey (it : NewsItem) :
    keyTitle (compositeKey it) = normalizeString it.title := by
  unfold keyTitle compositeKey splitOnChar
  have hdata : (normalizeString it.title ++ "-" ++ normalizeString it.source).data
      = (normalizeString it.title).data ++ '-' :: (normalizeString it.source).data := by
    rw [data_append, data_append, List.append_assoc]; rfl
  rw [hdata, splitOnCharAux_append _ _ _ [] normalizeString_ne_hyphen]
  simp

theorem isSimilar_self (t : String) : isSimilar t t = true := by
  simp [isSimilar]

/-! ## Helper lemmas: the insertion-ordered map -/

theorem length_mapSet_le (k : String) (v : NewsItem) :
    ∀ l : List (String × NewsItem), (mapSet k v l).length ≤ l.length + 1 := by
  intro l
  induction l with
  | nil => simp [mapSet]
  | cons e t ih =>
    by_cases h : e.1 = k
    · simp only [mapSet, if_pos h, List.length_cons]
      omega
    · simp only [mapSet, if_neg h, List.length_cons]
      omega

theorem snd_mem_mapSet {x : NewsItem} (k : String) (v : NewsItem) :
    ∀ l : List (String × NewsItem), x ∈ ((mapSet k v l).map Prod.snd) →
      x = v ∨ x ∈ l.map Prod.snd := by
  intro l
  induction l with
  | nil => simp [mapSet]
  | cons e t ih =>
    intro h
    by_cases he : e.1 = k
    · simp only [mapSet, if_pos he, List.map_cons, List.mem_cons] at h
      rcases h with h | h
      · exact Or.inl h
      · exact Or.inr (by simp only [List.map_cons, List.mem_cons]; exact Or.inr h)
    · simp only [mapSet, if_neg he, List.map_cons, List.mem_cons] at h
      rcases h with h | h
      · exact Or.inr (by simp only [List.map_cons, List.mem_cons]; exact Or.inl h)
      · rcases ih h with h' | h'
        · exact Or.inl h'
        · exact Or.inr (by simp only [List.map_cons, List.mem_cons]; exact Or.inr h')

theorem mapDelete_sublist (k : String) :
    ∀ l : List (String × NewsItem), (mapDelete k l).Sublist l := by
  intro l
  induction l with
  | nil => simp [mapDelete]
  | cons e t ih =>
    by_cases h : e.1 = k
    · simp only [mapDelete, if_pos h]
      exact (List.sublist_cons_self _ _)
    · simp only [mapDelete, if_neg h]
      exact List.Sublist.cons₂ _ ih

theorem length_dedupStep_le (pd : DateParse) (seen : List (String × NewsItem))
    (item : NewsItem) : (dedupStep pd seen item).length ≤ seen.length + 1 := by
  simp only [dedupStep]
  cases hfs : findSimilar (normalizeString item.title) seen with
  | none => exact length_mapSet_le _ _ _
  | some e =>
    obtain ⟨key, existing⟩ := e
    by_cases hgt : dateGt pd item.publishedAt existing.publishedAt = true
    · simp only [hgt, if_true]
      calc (mapDelete key (mapSet (compositeKey item) item seen)).length
          ≤ (mapSet (compositeKey item) item seen).length :=
            (mapDelete_sublist _ _).length_le
        _ ≤ seen.length + 1 := length_mapSet_le _ _ _
    · simp only [Bool.not_eq_true] at hgt
      simp only [hgt, Bool.false_eq_true, if_false]
      omega

theorem snd_mem_dedupStep {x : NewsItem} (pd : DateParse)
    (seen : List (String × NewsItem)) (item : NewsItem)
    (h : x ∈ (dedupStep pd seen item).map Prod.snd) :
    x = item ∨ x ∈ seen.map Prod.snd := by
  simp only [dedupStep] at h
  cases hfs : findSimilar (normalizeString item.title) seen with
  | none =>
    rw [hfs] at h
    exact snd_mem_mapSet _ _ _ h
  | some e =>
    obtain ⟨key, existing⟩ := e
    rw [hfs] at h
    by_cases hgt : dateGt pd item.publishedAt existing.publishedAt = true
    · simp only [hgt, if_true] at h
      have h1 : x ∈ (mapSet (compositeKey item) item seen).map Prod.snd :=
        ((mapDelete_sublist _ _).map Prod.snd).mem h
      exact snd_mem_mapSet _ _ _ h1
    · simp only [Bool.not_eq_true] at hgt
      simp only [hgt, Bool.false_eq_true, if_false] at h
      exact Or.inr h

theorem foldl_dedup_length (pd : DateParse) :
    ∀ (l : List NewsItem) (seen : List (String × NewsItem)),
      (l.foldl (dedupStep pd) seen).length ≤ seen.length + l.length := by
  intro l
  induction l with
  | nil => intro seen; simp
  | cons a t ih =>
    intro seen
    simp only [List.foldl_cons, List.length_cons]
    calc (t.foldl (dedupStep pd) (dedupStep pd seen a)).length
        ≤ (dedupStep pd seen a).length + t.length := ih _
      _ ≤ (seen.length + 1) + t.length := by
          have := length_dedupStep_le pd seen a; omega
      _ = seen.length + (t.length + 1) := by omega

theorem foldl_dedup_mem {x : NewsItem} (pd : DateParse) :
    ∀ (l : List NewsItem) (seen : List (String × NewsItem)),
      x ∈ (l.foldl (dedupStep pd) seen).map Prod.snd →
        x ∈ seen.map Prod.snd ∨ x ∈ l := by
  intro l
  induction l with
  | nil => intro seen h; exact Or.inl h
  | cons a t ih =>
    intro seen h
    simp only [List.foldl_cons] at h
    rcases ih _ h with h' | h'
    · rcases snd_mem_dedupStep pd seen a h' with h'' | h''
      · exact Or.inr (h'' ▸ List.mem_cons_self _ _)
      · exact Or.inl h''
    · exact Or.inr (List.mem_cons_of_mem _ h')

theorem findSimilar_eq_none {t : String} :
    ∀ {seen : List (String × NewsItem)},
      (∀ e ∈ seen, isSimilar t (keyTitle e.1) = false) →
      findSimilar t seen = none := by
  intro seen
  induction seen with
  | nil => intro _; rfl
  | cons e rest ih =>
    intro h
    obtain ⟨k, v⟩ := e
    have hk : isSimilar t (keyTitle k) = false := h (k, v) (List.mem_cons_self _ _)
    simp only [findSimilar, hk, Bool.false_eq_true, if_false]
    exact ih (fun e' he' => h e' (List.mem_cons_of_mem _ he'))

theorem mapSet_append {k : String} {v : NewsItem} :
    ∀ {l : List (String × NewsItem)}, (∀ e ∈ l, e.1 ≠ k) →
      mapSet k v l = l ++ [(k, v)] := by
  intro l
  induction l with
  | nil => intro _; rfl
  | cons e rest ih =>
    intro h
    have he : ¬(e.1 = k) := h e (List.mem_cons_self _ _)
    obtain ⟨k', v'⟩ := e
    simp only [mapSet, if_neg he, List.cons_append, List.cons.injEq, true_and]
    exact ih (fun e' he' => h e' (List.mem_cons_of_mem _ he'))

/-- Processing a block of pairwise non-similar items just appends their
entries to a map none of whose stored titles is similar to any of them. -/
theorem foldl_dedup_nosim (pd : DateParse) :
    ∀ (l : List NewsItem) (seen : List (String × NewsItem)),
      (∀ e ∈ seen, ∀ y ∈ l,
        isSimilar (normalizeString y.title) (keyTitle e.1) = false) →
      List.Pairwise (fun x y =>
        isSimilar (normalizeString y.title) (normalizeString x.title) = false) l →
      l.foldl (dedupStep pd) seen = seen ++ l.map (fun i => (compositeKey i, i)) := by
  intro l
  induction l with
  | nil => intro seen _ _; simp
  | cons a t ih =>
    intro seen hseen hpair
    have hnone : findSimilar (normalizeString a.title) seen = none :=
      findSimilar_eq_none (fun e he => hseen e he a (List.mem_cons_self _ _))
    have hstep : dedupStep pd seen a = seen ++ [(compositeKey a, a)] := by
      simp only [dedupStep, hnone]
      refine mapSet_append (fun e he heq => ?_)
      have h1 := hseen e he a (List.mem_cons_self _ _)
      rw [heq, keyTitle_compositeKey] at h1
      rw [isSimilar_self] at h1
      cases h1
    rw [List.foldl_cons, hstep]
    rw [ih (seen ++ [(compositeKey a, a)]) ?_ (List.pairwise_cons.mp hpair).2]
    · simp
    · intro e he y hy
      rcases List.mem_append.mp he with he' | he'
      · exact hseen e he' y (List.mem_cons_of_mem _ hy)
      · have : e = (compositeKey a, a) := by simpa using he'
        rw [this, keyTitle_compositeKey]
        exact (List.pairwise_cons.mp hpair).1 y hy

/-- Two-element runs of `deduplicateNews`, completely characterized for a
similar pair with distinct composite keys. -/
theorem dedup_pair (pd : DateParse) (a b : NewsItem)
    (hsim : isSimilar (normalizeString b.title) (normalizeString a.title) = true)
    (hkey : compositeKey a ≠ compositeKey b) :
    deduplicateNews pd [a, b] =
      if dateGt pd b.publishedAt a.publishedAt then [b] else [a] := by
  unfold deduplicateNews
  have s1 : dedupStep pd [] a = [(compositeKey a, a)] := by
    simp [dedupStep, findSimilar, mapSet]
  simp only [List.foldl_cons, List.foldl_nil, s1]
  have hkey' : ¬(compositeKey a = compositeKey b) := hkey
  simp only [dedupStep, findSimilar, keyTitle_compositeKey, hsim, if_true]
  by_cases hgt : dateGt pd b.publishedAt a.publishedAt = true
  · simp only [hgt, if_true]
    simp [mapSet, hkey', mapDelete]
  · simp only [Bool.not_eq_true] at hgt
    simp [hgt]

/-! ## Helper lemmas: sorting -/

theorem mem_orderedInsertLe {α : Type} (le : α → α → Bool) (x : α) :
    ∀ (l : List α) (y : α), y ∈ orderedInsertLe le x l ↔ y = x ∨ y ∈ l := by
  intro l
  induction l with
  | nil => intro y; simp [orderedInsertLe]
  | cons h t ih =>
    intro y
    simp only [orderedInsertLe]
    cases hle : le x h with
    | true =>
      simp only [if_true, List.mem_cons]
    | false =>
      simp only [Bool.false_eq_true, if_false, List.mem_cons, ih]
      tauto

theorem mem_sortByLe {α : Type} (le : α → α → Bool) :
    ∀ (l : List α) (y : α), y ∈ sortByLe le l ↔ y ∈ l := by
  intro l
  induction l with
  | nil => intro y; simp [sortByLe]
  | cons h t ih =>
    intro y
    simp only [sortByLe, mem_orderedInsertLe, ih, List.mem_cons]

theorem length_orderedInsertLe {α : Type} (le : α → α → Bool) (x : α) :
    ∀ l : List α, (orderedInsertLe le x l).length = l.length + 1 := by
  intro l
  induction l with
  | nil => rfl
  | cons h t ih =>
    simp only [orderedInsertLe]
    cases hle : le x h with
    | true => simp
    | false => simp [ih]

theorem length_sortByLe {α : Type} (le : α → α → Bool) :
    ∀ l : List α, (sortByLe le l).length = l.length := by
  intro l
  induction l with
  | nil => rfl
  | cons h t ih => simp [sortByLe, length_orderedInsertLe, ih]

theorem chain_orderedInsertLe {α : Type} {le : α → α → Bool}
    (htot : ∀ a b, le a b = true ∨ le b a = true) (x : α) :
    ∀ l : List α, List.Chain' (fun a b => le a b = true) l →
      List.Chain' (fun a b => le a b = true) (orderedInsertLe le x l) := by
  intro l
  induction l with
  | nil => intro _; simp [orderedInsertLe]
  | cons h t ih =>
    intro hchain
    simp only [orderedInsertLe]
    cases hle : le x h with
    | true =>
      simp only [if_true]
      exact List.Chain'.cons hle hchain
    | false =>
      simp only [Bool.false_eq_true, if_false]
      have hhx : le h x = true := by
        rcases htot x h with h' | h'
        · rw [hle] at h'; cases h'
        · exact h'
      have htail : List.Chain' (fun a b => le a b = true) t := hchain.tail
      cases t with
      | nil => simpa [orderedInsertLe] using hhx
      | cons h2 t2 =>
        have hh2 : le h h2 = true := (List.chain'_cons.mp hchain).1
        simp only [orderedInsertLe]
        cases hle2 : le x h2 with
        | true =>
          simp only [if_true]
          exact List.chain'_cons.mpr ⟨hhx, List.chain'_cons.mpr ⟨hle2, htail⟩⟩
        | false =>
          simp only [Bool.false_eq_true, if_false]
          have hrec := ih htail
          simp only [orderedInsertLe, hle2, Bool.false_eq_true, if_false] at hrec
          exact List.chain'_cons.mpr ⟨hh2, hrec⟩

theorem chain_sortByLe {α : Type} {le : α → α → Bool}
    (htot : ∀ a b, le a b = true ∨ le b a = true) :
    ∀ l : List α, List.Chain' (fun a b => le a b = true) (sortByLe le l) := by
  intro l
  induction l with
  | nil => simp [sortByLe]
  | cons h t ih => exact chain_orderedInsertLe htot h _ ih

theorem fallbackCmp_antisymm (pd : DateParse) (a b : RankedNewsItem) :
    fallbackCmp pd b a = -fallbackCmp pd a b := by
  unfold fallbackCmp
  rw [abs_sub_comm b.riskScore a.riskScore]
  split_ifs with h
  · push_cast
    ring
  · ring

theorem fallbackLe_total (pd : DateParse) (a b : RankedNewsItem) :
    fallbackLe pd a b = true ∨ fallbackLe pd b a = true := by
  unfold fallbackLe
  rcases le_total (fallbackCmp pd a b) 0 with h | h
  · left; exact decide_eq_true h
  · right
    refine decide_eq_true ?_
    rw [fallbackCmp_antisymm]
    linarith

theorem dateDescLe_total (pd : DateParse) (a b : NewsItem) :
    dateDescLe pd a b = true ∨ dateDescLe pd b a = true := by
  unfold dateDescLe
  by_cases h : timeVal pd b.publishedAt - timeVal pd a.publishedAt ≤ 0
  · left; exact decide_eq_true h
  · right; refine decide_eq_true ?_; omega

theorem scoreDescLe_total (a b : RankedNewsItem) :
    scoreDescLe a b = true ∨ scoreDescLe b a = true := by
  unfold scoreDescLe
  by_cases h : b.riskScore - a.riskScore ≤ 0
  · left; exact decide_eq_true h
  · right; refine decide_eq_true ?_; linarith

/-! ## Helper lemmas: score bounds and fallback shape -/

theorem clamp_bounds (x : ℚ) :
    1 ≤ min (max x 1) 10 ∧ min (max x 1) 10 ≤ 10 :=
  ⟨le_min (le_max_right _ _) (by norm_num), min_le_right _ _⟩

theorem roundToTenth_bounds {x : ℚ} (h1 : 1 ≤ x) (h2 : x ≤ 10) :
    1 ≤ roundToTenth x ∧ roundToTenth x ≤ 10 := by
  unfold roundToTenth
  constructor
  · rw [le_div_iff₀ (by norm_num : (0:ℚ) < 10)]
    have h3 : (10 : ℤ) ≤ ⌊x * 10 + 1 / 2⌋ := by
      rw [Int.le_floor]
      push_cast
      linarith
    have h4 : ((10 : ℤ) : ℚ) ≤ (⌊x * 10 + 1 / 2⌋ : ℚ) := by exact_mod_cast h3
    push_cast at h4 ⊢
    linarith
  · rw [div_le_iff₀ (by norm_num : (0:ℚ) < 10)]
    have h3 : ⌊x * 10 + 1 / 2⌋ < 101 := by
      rw [Int.floor_lt]
      push_cast
      linarith
    have h4 : (⌊x * 10 + 1 / 2⌋ : ℚ) ≤ 100 := by exact_mod_cast (by omega : ⌊x * 10 + 1 / 2⌋ ≤ 100)
    linarith

theorem hybrid_finalScore_bounds (pd : DateParse) (now : Int) (b : ℚ)
    (item : NewsItem) :
    1 ≤ (calculateHybridRiskScore pd now b item).finalScore ∧
    (calculateHybridRiskScore pd now b item).finalScore ≤ 10 := by
  simp only [calculateHybridRiskScore]
  exact roundToTenth_bounds (clamp_bounds _).1 (clamp_bounds _).2

theorem str_ne_empty_of_data_ne_nil {s : String} (h : s.data ≠ []) : s ≠ "" := by
  intro heq
  rw [heq] at h
  exact h rfl

theorem append_rbracket_ne_empty (s : String) : s ++ "]" ≠ "" := by
  refine str_ne_empty_of_data_ne_nil ?_
  rw [data_append]
  simp

theorem fallback_used (pd : DateParse) (now : Int) (l : List NewsItem) :
    (fallbackToChronological pd now l).fallbackUsed = true := rfl

theorem fallback_mem {it : RankedNewsItem} (pd : DateParse) (now : Int)
    (l : List NewsItem) (h : it ∈ (fallbackToChronological pd now l).items) :
    ∃ src ∈ l, it = fallbackEnrich pd now src := by
  simp only [fallbackToChronological] at h
  have h1 := List.mem_of_mem_take h
  rw [mem_sortByLe] at h1
  rcases List.mem_map.mp h1 with ⟨src, hsrc, heq⟩
  exact ⟨src, hsrc, heq.symm⟩

theorem fallback_length (pd : DateParse) (now : Int) (l : List NewsItem) :
    (fallbackToChronological pd now l).items.length ≤ 5 := by
  simp only [fallbackToChronological]
  rw [List.length_take]
  omega

theorem fallbackEnrich_reason_marked (pd : DateParse) (now : Int)
    (src : NewsItem) : fallbackMarked (fallbackEnrich pd now src).impactReason := by
  left
  show ("Chronological fallback - AI ranking unavailable").data <+:
    ("Chronological fallback - AI ranking unavailable [" ++
      (calculateHybridRiskScore pd now 5 src).breakdown ++ "]").data
  rw [data_append, data_append]
  have : ("Chronological fallback - AI ranking unavailable [").data =
      ("Chronological fallback - AI ranking unavailable").data ++ (" [").data := rfl
  rw [this, List.append_assoc, List.append_assoc]
  exact List.prefix_append _ _

theorem fallback_marked (pd : DateParse) (now : Int) (l : List NewsItem) :
    ∀ it ∈ (fallbackToChronological pd now l).items,
      fallbackMarked it.impactReason := by
  intro it hit
  rcases fallback_mem pd now l hit with ⟨src, _, rfl⟩
  exact fallbackEnrich_reason_marked pd now src

/-! ## Helper lemmas: ranking-response processing -/

theorem rankingAccepted_eq_some (pd : DateParse) (now : Int)
    (items : List NewsItem) (rk : Ranking) (it : RankedNewsItem) :
    rankingAccepted pd now items rk = some it ↔
    ∃ orig s, lookupItem items rk.id = some orig ∧ rk.riskScore = some s ∧
      3 ≤ (calculateHybridRiskScore pd now (min (max s 1) 10) orig).finalScore ∧
      it = enrich orig
        (calculateHybridRiskScore pd now (min (max s 1) 10) orig).finalScore
        (reasonOrDefault rk.impactReason ++ " [" ++
          (calculateHybridRiskScore pd now (min (max s 1) 10) orig).breakdown
          ++ "]") := by
  unfold rankingAccepted
  cases hl : lookupItem items rk.id with
  | none => simp
  | some orig =>
    cases hs : rk.riskScore with
    | none => simp
    | some s =>
      simp only [Option.some.injEq]
      by_cases hth :
          3 ≤ (calculateHybridRiskScore pd now (min (max s 1) 10) orig).finalScore
      · rw [if_pos hth]
        constructor
        · rintro h
          exact ⟨orig, s, rfl, rfl, hth, (Option.some.injEq _ _).mp h |>.symm⟩
        · rintro ⟨orig', s', h1, h2, _, h4⟩
          obtain rfl : orig = orig' := by simpa using h1
          obtain rfl : s = s' := by simpa using h2
          rw [h4]
      · rw [if_neg hth]
        constructor
        · rintro ⟨⟩
        · rintro ⟨orig', s', h1, h2, h3, _⟩
          obtain rfl : orig = orig' := by simpa using h1
          obtain rfl : s = s' := by simpa using h2
          exact absurd h3 hth

theorem mem_processRankings {it : RankedNewsItem} (pd : DateParse) (now : Int)
    (items : List NewsItem) (rks : List Ranking)
    (h : it ∈ processRankings pd now items rks) :
    3 ≤ it.riskScore ∧ 1 ≤ it.riskScore ∧ it.riskScore ≤ 10 ∧
      it.impactReason ≠ "" := by
  rcases List.mem_filterMap.mp h with ⟨rk, _, hacc⟩
  rcases (rankingAccepted_eq_some pd now items rk it).mp hacc with
    ⟨orig, s, _, _, hth, heq⟩
  have hb := hybrid_finalScore_bounds pd now (min (max s 1) 10) orig
  subst heq
  refine ⟨hth, hb.1, hb.2, ?_⟩
  exact append_rbracket_ne_empty _

theorem fallback_item_bounds (pd : DateParse) (now : Int) (l : List NewsItem) :
    ∀ it ∈ (fallbackToChronological pd now l).items,
      (1 ≤ it.riskScore ∧ it.riskScore ≤ 10) ∧ it.impactReason ≠ "" := by
  intro it hit
  rcases fallback_mem pd now l hit with ⟨src, _, rfl⟩
  exact ⟨⟨(hybrid_finalScore_bounds pd now 5 src).1,
    (hybrid_finalScore_bounds pd now 5 src).2⟩, append_rbracket_ne_empty _⟩

theorem rankNews_parsed_none (pd : DateParse) (now : Int) (l : List NewsItem) :
    rankNewsByImpact pd now (.parsed none) l =
      fallbackToChronological pd now (sortByLe (dateDescLe pd) l) := rfl

theorem rankNews_zero_accepted (pd : DateParse) (now : Int) (l : List NewsItem)
    (rks : List Ranking)
    (hzero : processRankings pd now ((sortByLe (dateDescLe pd) l).take 8) rks = []) :
    rankNewsByImpact pd now (.parsed (some rks)) l =
      fallbackToChronological pd now (sortByLe (dateDescLe pd) l) := by
  simp only [rankNewsByImpact, Option.getD_some, hzero]
  simp [sortByLe]

/-! ## The claims -/

/-- C10: for every input list, every item in the output of `deduplicateNews`
is one of the input items, unchanged field-for-field, and the output length
is at most the input length. -/
theorem dedup_conservative (pd : DateParse) (items : List NewsItem) :
    (deduplicateNews pd items).length ≤ items.length ∧
    ∀ x ∈ deduplicateNews pd items, x ∈ items := by
  constructor
  · have h := foldl_dedup_length pd items []
    unfold deduplicateNews
    rw [List.length_map]
    simpa using h
  · intro x hx
    unfold deduplicateNews at hx
    rcases foldl_dedup_mem pd items [] hx with h | h
    · simp at h
    · exact h

theorem dedup_conservative_witness :
    (deduplicateNews pdW [cexA, cexB, cexC]).length ≤ 3 ∧
    cexB ∈ [cexA, cexB, cexC] :=
  ⟨(dedup_conservative pdW [cexA, cexB, cexC]).1,
   (dedup_conservative pdW [cexA, cexB, cexC]).2 cexB (by decide)⟩

/-- C4 counterexample: (i) on a three-element input the deduplicated output
retains two items whose normalized titles are substring-related (the incoming
item merges only with the first similar map entry and then coexists with the
second); (ii) when the more recent duplicate has the same composite
title-source key, `seen.set` followed by `seen.delete` of that same key
removes both items, so the more recent one does not survive. -/
theorem dedup_similarity_cex :
    (deduplicateNews pdW [cexA, cexB, cexC] = [cexB, cexC] ∧
      isSimilar (normalizeString cexB.title) (normalizeString cexC.title) = true) ∧
    (deduplicateNews pdW [cexD, cexE] = [] ∧
      dateGt pdW cexE.publishedAt cexD.publishedAt = true ∧
      isSimilar (normalizeString cexE.title) (normalizeString cexD.title) = true) := by
  refine ⟨⟨?_, ?_⟩, ?_, ?_, ?_⟩ <;> decide

/-- C4 (amended): for a two-element input whose normalized titles are similar
and whose composite title-source keys differ, exactly one item survives: the
later one when both `publishedAt` values parse and the second is strictly
more recent, otherwise (including any unparseable timestamp) the
earlier-seen one. -/
theorem dedup_pair_resolution (pd : DateParse) (a b : NewsItem)
    (hsim : isSimilar (normalizeString b.title) (normalizeString a.title) = true)
    (hkey : compositeKey a ≠ compositeKey b) :
    deduplicateNews pd [a, b] =
      if dateGt pd b.publishedAt a.publishedAt then [b] else [a] :=
  dedup_pair pd a b hsim hkey

theorem dedup_pair_resolution_witness :
    isSimilar (normalizeString cexG.title) (normalizeString cexF.title) = true ∧
    compositeKey cexF ≠ compositeKey cexG ∧
    deduplicateNews pdW [cexF, cexG] = [cexG] := by
  refine ⟨by decide, by decide, ?_⟩
  rw [dedup_pair_resolution pdW cexF cexG (by decide) (by decide)]
  decide

/-- C5 counterexample: deduplication is not idempotent — applying
`deduplicateNews` to its own output removes a further item. -/
theorem dedup_not_idempotent_cex :
    deduplicateNews pdW (deduplicateNews pdW [cexA, cexB, cexC]) ≠
      deduplicateNews pdW [cexA, cexB, cexC] := by
  decide

/-- C5 (amended): deduplication is the identity — hence idempotent — on any
list in which no later item's normalized title is similar to an earlier
item's; in general a second pass over an output that still contains a
similar pair removes further items. -/
theorem dedup_fixed_of_pairwise_nonsimilar (pd : DateParse)
    (l : List NewsItem)
    (h : List.Pairwise (fun x y =>
      isSimilar (normalizeString y.title) (normalizeString x.title) = false) l) :
    deduplicateNews pd l = l := by
  unfold deduplicateNews
  rw [foldl_dedup_nosim pd l [] (fun e he => absurd he (List.not_mem_nil e)) h]
  simp only [List.nil_append, List.map_map]
  exact List.map_id'' (fun _ => rfl) l

theorem dedup_fixed_of_pairwise_nonsimilar_witness :
    deduplicateNews pdW [cexA, cexB] = [cexA, cexB] :=
  dedup_fixed_of_pairwise_nonsimilar pdW [cexA, cexB] (by decide)

/-- C2: on every execution path the triage result carries at most 5 items. -/
theorem triage_at_most_five (pd : DateParse) (now : Int)
    (c1 c2 : Option (List NewsItem)) (scorer : ScorerOutcome) :
    (triageAndRankNews pd now c1 c2 scorer).items.length ≤ 5 := by
  cases c1 with
  | none =>
    cases c2 with
    | none => simp [triageAndRankNews]
    | some items =>
      simp only [triageAndRankNews, List.length_map, List.length_take]
      omega
  | some items =>
    by_cases h : items.length = 0
    · simp [triageAndRankNews, h]
    · simp only [triageAndRankNews, if_neg h]
      cases scorer with
      | failure => exact fallback_length pd now items
      | parsed o =>
        simp only [rankNewsByImpact]
        split
        · exact fallback_length pd now _
        · simp only [List.length_take]
          omega

/-- C3: every item of every triage result has a risk score in [1, 10] and a
non-empty impact reason, on the AI-scored path, both fallback paths, and the
empty path. -/
theorem triage_item_invariants (pd : DateParse) (now : Int)
    (c1 c2 : Option (List NewsItem)) (scorer : ScorerOutcome) :
    ∀ it ∈ (triageAndRankNews pd now c1 c2 scorer).items,
      (1 ≤ it.riskScore ∧ it.riskScore ≤ 10) ∧ it.impactReason ≠ "" := by
  intro it hit
  cases c1 with
  | none =>
    cases c2 with
    | none => simp [triageAndRankNews] at hit
    | some items =>
      simp only [triageAndRankNews] at hit
      rcases List.mem_map.mp hit with ⟨src, _, rfl⟩
      exact ⟨⟨(by norm_num : (1:ℚ) ≤ 5), (by norm_num : (5:ℚ) ≤ 10)⟩,
        (by decide : ("Fallback mode - AI ranking unavailable" : String) ≠ "")⟩
  | some items =>
    by_cases h : items.length = 0
    · simp [triageAndRankNews, h] at hit
    · simp only [triageAndRankNews, if_neg h] at hit
      cases scorer with
      | failure => exact fallback_item_bounds pd now items it hit
      | parsed o =>
        simp only [rankNewsByImpact] at hit
        split at hit
        · exact fallback_item_bounds pd now _ it hit
        · have h1 := List.mem_of_mem_take hit
          rw [mem_sortByLe] at h1
          have h2 := mem_processRankings pd now _ _ h1
          exact ⟨⟨h2.2.1, h2.2.2.1⟩, h2.2.2.2⟩

theorem triage_item_invariants_witness :
    (1 ≤ (fallbackEnrich pdW nowW itemEnh).riskScore ∧
      (fallbackEnrich pdW nowW itemEnh).riskScore ≤ 10) ∧
    (fallbackEnrich pdW nowW itemEnh).impactReason ≠ "" :=
  triage_item_invariants pdW nowW (some [itemEnh]) none .failure
    (fallbackEnrich pdW nowW itemEnh) (by decide)

/-- C1: whenever the scorer backend fails (timeout, transport error,
malformed output, or zero accepted items), the triage operation still
returns a well-formed result whose fallback flag is set and whose items all
carry fallback-marked impact reasons; an empty collection yields an empty
result with the flag set. -/
theorem triage_scorer_failure_degrades (pd : DateParse) (now : Int)
    (c2 : Option (List NewsItem)) (scorer : ScorerOutcome)
    (items : List NewsItem) (h : scorerFailed pd now scorer items) :
    (triageAndRankNews pd now (some items) c2 scorer).fallbackUsed = true ∧
    (∀ it ∈ (triageAndRankNews pd now (some items) c2 scorer).items,
      fallbackMarked it.impactReason) ∧
    (items = [] →
      (triageAndRankNews pd now (some items) c2 scorer).items = []) := by
  by_cases hlen : items.length = 0
  · have hnil : items = [] := List.length_eq_zero.mp hlen
    subst hnil
    exact ⟨rfl, fun it hit => absurd hit (List.not_mem_nil it), fun _ => rfl⟩
  · have himp : items = [] →
        (triageAndRankNews pd now (some items) c2 scorer).items = [] :=
      fun he => absurd (by rw [he]; rfl) hlen
    rcases h with rfl | rfl | ⟨rks, rfl, hzero⟩
    · refine ⟨?_, ?_, himp⟩
      · simp only [triageAndRankNews, if_neg hlen]
        rfl
      · intro it hit
        simp only [triageAndRankNews, if_neg hlen] at hit
        exact fallback_marked pd now items it hit
    · refine ⟨?_, ?_, himp⟩
      · simp only [triageAndRankNews, if_neg hlen, rankNews_parsed_none]
        rfl
      · intro it hit
        simp only [triageAndRankNews, if_neg hlen, rankNews_parsed_none] at hit
        exact fallback_marked pd now _ it hit
    · refine ⟨?_, ?_, himp⟩
      · simp only [triageAndRankNews, if_neg hlen,
          rankNews_zero_accepted pd now items rks hzero]
        rfl
      · intro it hit
        simp only [triageAndRankNews, if_neg hlen,
          rankNews_zero_accepted pd now items rks hzero] at hit
        exact fallback_marked pd now _ it hit

theorem triage_scorer_failure_degrades_witness :
    scorerFailed pdW nowW .failure [itemEnh] ∧
    (triageAndRankNews pdW nowW (some [itemEnh]) none .failure).fallbackUsed
      = true :=
  ⟨Or.inl rfl,
    (triage_scorer_failure_degrades pdW nowW none .failure [itemEnh]
      (Or.inl rfl)).1⟩

/-- C7: the fallback ranker enriches every input item with the neutral base
score 5 passed through the same four heuristic multipliers, marks every
impact reason as a fallback explanation, emits at most 5 items ordered by
score descending with recency breaking near-ties, never fails (it is a total
function), and returns an empty list on empty input. -/
theorem fallback_ranker_contract (pd : DateParse) (now : Int)
    (l : List NewsItem) :
    (fallbackToChronological pd now l).fallbackUsed = true ∧
    (fallbackToChronological pd now l).items.length ≤ 5 ∧
    (l = [] → (fallbackToChronological pd now l).items = []) ∧
    (∀ it ∈ (fallbackToChronological pd now l).items,
      ∃ src ∈ l, it = fallbackEnrich pd now src) ∧
    (∀ it ∈ (fallbackToChronological pd now l).items,
      fallbackMarked it.impactReason) ∧
    List.Chain' (fallbackOrdered pd) (fallbackToChronological pd now l).items := by
  refine ⟨rfl, fallback_length pd now l, ?_,
    fun it hit => fallback_mem pd now l hit, fallback_marked pd now l, ?_⟩
  · rintro rfl
    rfl
  · exact (chain_sortByLe (fallbackLe_total pd) (l.map (fallbackEnrich pd now))).take 5

theorem fallback_ranker_contract_witness :
    (fallbackToChronological pdW nowW [itemEnh, itemPlain]).fallbackUsed = true ∧
    (fallbackToChronological pdW nowW [itemEnh, itemPlain]).items.length ≤ 5 :=
  ⟨(fallback_ranker_contract pdW nowW [itemEnh, itemPlain]).1,
   (fallback_ranker_contract pdW nowW [itemEnh, itemPlain]).2.1⟩

/-- C9: a ranking entry whose id does not index a collected item, or whose
score is not numeric, contributes nothing to the output (and causes no
failure); a transport/parse failure and a structurally malformed response
both land on the fallback path instead of propagating. -/
theorem ranking_response_validation (pd : DateParse) (now : Int)
    (items : List NewsItem) (rks : List Ranking) (l : List NewsItem) :
    processRankings pd now items rks =
      processRankings pd now items
        (rks.filter (fun rk =>
          (lookupItem items rk.id).isSome && rk.riskScore.isSome)) ∧
    rankNewsByImpact pd now .failure l = fallbackToChronological pd now l ∧
    rankNewsByImpact pd now (.parsed none) l =
      fallbackToChronological pd now (sortByLe (dateDescLe pd) l) := by
  refine ⟨?_, rfl, rankNews_parsed_none pd now l⟩
  unfold processRankings
  induction rks with
  | nil => rfl
  | cons rk t ih =>
    rw [List.filter_cons]
    by_cases hv : ((lookupItem items rk.id).isSome && rk.riskScore.isSome) = true
    · rw [if_pos hv]
      rw [List.filterMap_cons, List.filterMap_cons]
      cases hacc : rankingAccepted pd now items rk with
      | none => exact ih
      | some it => rw [ih]
    · rw [if_neg hv]
      rw [List.filterMap_cons]
      have hnone : rankingAccepted pd now items rk = none := by
        unfold rankingAccepted
        cases hl : lookupItem items rk.id with
        | none => rfl
        | some o =>
          cases hs : rk.riskScore with
          | none => rfl
          | some s =>
            exact absurd (by rw [hl, hs]; rfl) hv
      rw [hnone]
      exact ih

/-- C6: the implemented final risk score agrees with the spec's formula
`clamp(base × recency × source × keyword × geo, 1, 10)` rounded to one
decimal, a ranking entry is accepted exactly when that final score reaches
the 3.0 threshold, and every accepted item's score is at least 3. -/
theorem scorer_formula_and_threshold (pd : DateParse) (now : Int) (base : ℚ)
    (item : NewsItem) (items : List NewsItem) (rk : Ranking) (orig : NewsItem)
    (s : ℚ) (hl : lookupItem items rk.id = some orig)
    (hs : rk.riskScore = some s) :
    (calculateHybridRiskScore pd now base item).finalScore =
      specFinalScore pd now base item ∧
    ((rankingAccepted pd now items rk).isSome ↔
      3 ≤ specFinalScore pd now (min (max s 1) 10) orig) ∧
    (∀ rks, ∀ out ∈ processRankings pd now items rks, 3 ≤ out.riskScore) := by
  have hspec : ∀ (b : ℚ) (it : NewsItem),
      (calculateHybridRiskScore pd now b it).finalScore =
        specFinalScore pd now b it := fun b it => rfl
  refine ⟨hspec base item, ?_, ?_⟩
  · rw [← hspec]
    constructor
    · intro hsome
      rcases Option.isSome_iff_exists.mp hsome with ⟨it', hit'⟩
      rcases (rankingAccepted_eq_some pd now items rk it').mp hit' with
        ⟨orig', s', h1, h2, h3, _⟩
      obtain rfl : orig = orig' := by
        rw [hl] at h1
        exact (Option.some.injEq _ _).mp h1
      obtain rfl : s = s' := by
        rw [hs] at h2
        exact (Option.some.injEq _ _).mp h2
      exact h3
    · intro h3
      rw [Option.isSome_iff_exists]
      exact ⟨_, (rankingAccepted_eq_some pd now items rk _).mpr
        ⟨orig, s, hl, hs, h3, rfl⟩⟩
  · intro rks out hout
    exact (mem_processRankings pd now items rks hout).1

theorem scorer_formula_and_threshold_witness :
    lookupItem [itemEnh] rkW.id = some itemEnh ∧
    rkW.riskScore = some 5 ∧
    ((rankingAccepted pdW nowW [itemEnh] rkW).isSome ↔
      3 ≤ specFinalScore pdW nowW (min (max 5 1) 10) itemEnh) := by
  refine ⟨by decide, rfl, ?_⟩
  exact (scorer_formula_and_threshold pdW nowW 5 itemEnh [itemEnh] rkW itemEnh 5
    (by decide) rfl).2.1

/-- Arithmetic core of C8: with the multiplier product 3042/625 (≈ 4.8672)
of the feature-laden item against 3/4 of the featureless one, the rounded
clamped score of the former strictly exceeds the latter for every base score
in [1, 10]. -/
theorem hybrid_cmp_aux (b : ℚ) (hb1 : 1 ≤ b) (hb2 : b ≤ 10) :
    roundToTenth (min (max (3 / 4 * b) 1) 10) <
    roundToTenth (min (max (3042 / 625 * b) 1) 10) := by
  have hlo : (3042 / 625 : ℚ) ≤ 3042 / 625 * b := by nlinarith
  have key : ⌊(min (max (3 / 4 * b) 1) 10) * 10 + 1 / 2⌋ <
      ⌊(min (max (3042 / 625 * b) 1) 10) * 10 + 1 / 2⌋ := by
    have hBmax : max (3042 / 625 * b) 1 = 3042 / 625 * b :=
      max_eq_left (by linarith)
    rw [hBmax]
    by_cases hc : 3042 / 625 * b < 10
    · have hBmin : min (3042 / 625 * b) 10 = 3042 / 625 * b :=
        min_eq_left (le_of_lt hc)
      rw [hBmin]
      have hAle : min (max (3 / 4 * b) 1) 10 ≤ 39 / 25 :=
        le_trans (min_le_left _ _) (max_le (by linarith) (by norm_num))
      have k1 : ⌊(min (max (3 / 4 * b) 1) 10) * 10 + 1 / 2⌋ < (17 : ℤ) := by
        rw [Int.floor_lt]
        push_cast
        linarith
      have k2 : (17 : ℤ) ≤ ⌊(3042 / 625 * b) * 10 + 1 / 2⌋ := by
        rw [Int.le_floor]
        push_cast
        linarith
      omega
    · push_neg at hc
      have hBmin : min (3042 / 625 * b) 10 = 10 := min_eq_right hc
      rw [hBmin]
      have hAle : min (max (3 / 4 * b) 1) 10 ≤ 15 / 2 :=
        le_trans (min_le_left _ _) (max_le (by linarith) (by norm_num))
      have k1 : ⌊(min (max (3 / 4 * b) 1) 10) * 10 + 1 / 2⌋ < (76 : ℤ) := by
        rw [Int.floor_lt]
        push_cast
        linarith
      have k2 : (100 : ℤ) ≤ ⌊(10 : ℚ) * 10 + 1 / 2⌋ := by
        rw [Int.le_floor]
        norm_num
      omega
  unfold roundToTenth
  have keyQ : ((⌊(min (max (3 / 4 * b) 1) 10) * 10 + 1 / 2⌋ : ℤ) : ℚ) <
      ((⌊(min (max (3042 / 625 * b) 1) 10) * 10 + 1 / 2⌋ : ℤ) : ℚ) := by
    exact_mod_cast key
  linarith

/-- C8: the hybrid score is a deterministic function of the publish time,
source, title, description and evaluation time only; and for every base AI
score in [1,10] the concrete feature-laden article (urgent keywords, 1 hour
old, top-tier wire source, priority-country mention) scores strictly higher
than the featureless one. -/
theorem hybrid_deterministic_and_feature_monotone :
    (∀ (pd : DateParse) (now : Int) (b : ℚ) (i1 i2 : NewsItem),
      i1.title = i2.title → i1.description = i2.description →
      i1.source = i2.source → i1.publishedAt = i2.publishedAt →
      calculateHybridRiskScore pd now b i1 = calculateHybridRiskScore pd now b i2) ∧
    (∀ b : ℚ, 1 ≤ b → b ≤ 10 →
      (calculateHybridRiskScore pdW nowW b itemPlain).finalScore <
      (calculateHybridRiskScore pdW nowW b itemEnh).finalScore) := by
  constructor
  · intro pd now b i1 i2 h1 h2 h3 h4
    simp only [calculateHybridRiskScore, h1, h2, h3, h4]
  · intro b hb1 hb2
    have e1 : calculateRecencyMultiplier pdW nowW itemEnh.publishedAt = 3 / 2 := by
      decide
    have e2 : calculateSourceCredibilityWeight itemEnh.source = 13 / 10 := by
      decide
    have e3 : calculateKeywordImpactBoost itemEnh.title itemEnh.description
        = 39 / 25 := by decide
    have e4 : calculateGeographicRelevance itemEnh.title itemEnh.description
        itemEnh.source = 8 / 5 := by decide
    have p1 : calculateRecencyMultiplier pdW nowW itemPlain.publishedAt = 5 / 6 := by
      decide
    have p2 : calculateSourceCredibilityWeight itemPlain.source = 9 / 10 := by
      decide
    have p3 : calculateKeywordImpactBoost itemPlain.title itemPlain.description
        = 1 := by decide
    have p4 : calculateGeographicRelevance itemPlain.title itemPlain.description
        itemPlain.source = 1 := by decide
    simp only [calculateHybridRiskScore, e1, e2, e3, e4, p1, p2, p3, p4]
    have hE : b * (3 / 2) * (13 / 10) * (39 / 25) * (8 / 5) = 3042 / 625 * b := by
      ring
    have hP : b * (5 / 6) * (9 / 10) * 1 * 1 = 3 / 4 * b := by
      ring
    rw [hE, hP]
    exact hybrid_cmp_aux b hb1 hb2

theorem hybrid_deterministic_and_feature_monotone_witness :
    (1 : ℚ) ≤ 5 ∧ (5 : ℚ) ≤ 10 ∧
    (calculateHybridRiskScore pdW nowW 5 itemPlain).finalScore <
      (calculateHybridRiskScore pdW nowW 5 itemEnh).finalScore :=
  ⟨by norm_num, by norm_num,
    hybrid_deterministic_and_feature_monotone.2 5 (by norm_num) (by norm_num)⟩

end NewsTriage
